import Mathlib

/-!
Shallow embedding of `tm88iv/tm88iv.py` (class `TM88IV`), covering:
the character classification chain of `jptext2`, the two LRU slot pools
(`_user_areas`, `_gaiji_areas`) and `_define_gaiji`, the bitmap packer and
command framing of `_escpos_register_gaiji`, and the attribute bracketing of
`jptext2`.

External collaborators (per the library's own boundary): the Pillow font
engine is modelled as a pixel oracle `pix : Nat → Nat → Nat` standing for
`img.getpixel((x, y))` after `img.convert('1')` (values 0 or 255); the JIS
table membership tests, the emoji classifier and the cp932 codec are
modelled as oracle fields of `Oracles`.
-/

namespace TM88IV

/-- `ESC` byte from `escpos.constants`. -/
def ESC : Nat := 0x1b

/-- `FS` byte from `escpos.constants`. -/
def FS : Nat := 0x1c

/-- `GS` byte from `escpos.constants`. -/
def GS : Nat := 0x1d

/-- `self._c1 = b'\xec'`: first byte of the gaiji character code (Shift JIS). -/
def c1 : Nat := 0xec

/-- `USER_AREAS_ASCII`: the 95 single-byte slot codes `0x20 .. 0x7e`. -/
def USER_AREAS_ASCII : List Nat := List.range' 0x20 95

/-- `USER_KANJI_AREAS_SJIS`: the 94 double-byte slot low bytes
`0x40 .. 0x7e` followed by `0x80 .. 0x9e`. -/
def USER_KANJI_AREAS_SJIS : List Nat := List.range' 0x40 63 ++ List.range' 0x80 31

/-- A slot pool (`collections.OrderedDict`): entries in insertion order,
front = least recently used, back = most recently used.  The occupant `''`
of a never-used slot is modelled as `none`. -/
abbrev Pool := List (Nat × Option Char)

/-- `self._user_areas` right after `__init__`: every slot empty. -/
def initUserAreas : Pool := USER_AREAS_ASCII.map (fun a => (a, none))

/-- `self._gaiji_areas` right after `__init__`: every slot empty. -/
def initGaijiAreas : Pool := USER_KANJI_AREAS_SJIS.map (fun a => (a, none))

/-- One pixel of the converted image as a bit: `'0'` if the pixel is white
(`pixel == 255`), `'1'` otherwise. -/
def bitVal (pix : Nat → Nat → Nat) (x y : Nat) : Nat :=
  if pix x y = 255 then 0 else 1

/-- `int(bit_str, 2)`: the accumulated bit characters read as a binary
numeral, first accumulated bit most significant. -/
def bitsToNat (bits : List Nat) : Nat :=
  bits.foldl (fun a b => 2 * a + b) 0

/-- Body of the inner `for y in range(img.height)` loop of
`_escpos_register_gaiji`: append the bit for pixel `(x, y)` to `bit_str`,
and each time `(y + 1) % 8 == 0` emit `int(bit_str, 2)` into `byte_array`
and reset `bit_str`.  The state is `(bit_str, byte_array)`. -/
def packInner (pix : Nat → Nat → Nat) (x : Nat) (a : List Nat × List Nat)
    (y : Nat) : List Nat × List Nat :=
  let bits := a.1 ++ [bitVal pix x y]
  if (y + 1) % 8 = 0 then ([], a.2 ++ [bitsToNat bits]) else (bits, a.2)

/-- The packing double loop of `_escpos_register_gaiji`: for each column
`x` left to right, run the inner row loop, starting from an empty `bit_str`
and `byte_array`; the result is the final `byte_array`. -/
def packBitmap (pix : Nat → Nat → Nat) (w h : Nat) : List Nat :=
  ((List.range w).foldl
    (fun acc x => (List.range h).foldl (packInner pix x) acc)
    ([], [])).2

/-- `_escpos_register_gaiji` after rasterization: the sequence of `_raw`
chunks it sends.  `asciiflg` chooses the 12×24 download-character frame
(`ESC & 0x03 c2 c2` then `0x0c`) over the 24×24 gaiji frame
(`FS 2 c1 c2`); each packed byte is then sent by its own `_raw` call. -/
def escposRegisterGaiji (pix : Nat → Nat → Nat) (c2 : Nat) (asciiflg : Bool) :
    List (List Nat) :=
  let w := if asciiflg then 12 else 24
  let bytes := packBitmap pix w 24
  (if asciiflg then [[ESC, 0x26, 0x03, c2, c2], [0x0c]] else [[FS, 0x32, c1, c2]])
    ++ bytes.map (fun b => [b])

/-- Result of one `_define_gaiji` call: the pool after the call, the value
the call returns (`Except.error ()` models a raised `TypeError`), and the
`_raw` chunks it sent to the device. -/
structure DefineOut where
  pool : Pool
  result : Except Unit (List Nat)
  device : List (List Nat)
  deriving Repr

/-- `_define_gaiji(gaiji, …, asciiflg)` on the pool the flag selects
(`_user_areas` when `asciiflg`, `_gaiji_areas` otherwise).

Hit loop: the first slot whose occupant equals `gaiji` is popped and
re-inserted at the MRU end (`d[k] = d.pop(k)`) and the selection bytes are
returned with no device traffic — except that on the `asciiflg` hit path the
source evaluates `ESC + b'%' + ' \x01' + k + …` (line 309), concatenating
`bytes` with the `str` literal `' \x01'`, which raises `TypeError`; this is
modelled as `Except.error ()` (the pool mutation has already happened).

Miss loop: the first (least recently used) slot is popped, re-inserted at
the MRU end occupied by `gaiji`, `_escpos_register_gaiji` runs, and the
selection bytes are returned.  An empty pool skips both loops and reaches
`return b''`. -/
def defineGaiji (pix : Nat → Nat → Nat) (pool : Pool) (gaiji : Char)
    (asciiflg : Bool) : DefineOut :=
  if asciiflg then
    match pool.find? (fun kv => kv.2 == some gaiji) with
    | some (k, v) =>
        { pool := pool.eraseP (fun kv => kv.1 == k) ++ [(k, v)]
          result := Except.error ()
          device := [] }
    | none =>
        match pool with
        | [] => { pool := [], result := Except.ok [], device := [] }
        | (k, _) :: rest =>
            { pool := rest ++ [(k, some gaiji)]
              result := Except.ok [ESC, 0x25, 0x01, k, ESC, 0x25, 0x00]
              device := escposRegisterGaiji pix k asciiflg }
  else
    match pool.find? (fun kv => kv.2 == some gaiji) with
    | some (k, v) =>
        { pool := pool.eraseP (fun kv => kv.1 == k) ++ [(k, v)]
          result := Except.ok [c1, k]
          device := [] }
    | none =>
        match pool with
        | [] => { pool := [], result := Except.ok [], device := [] }
        | (k, _) :: rest =>
            { pool := rest ++ [(k, some gaiji)]
              result := Except.ok [c1, k]
              device := escposRegisterGaiji pix k asciiflg }

/-- Which font profile a custom glyph uses in `jptext2`. -/
inductive FontProfile where
  | kanji
  | emojiFont
  | fallback
  deriving Repr, DecidableEq

/-- Per-character outcome of the `if/elif` chain of `jptext2`. -/
inductive Classification where
  | builtin
  | custom (profile : FontProfile)
  deriving Repr, DecidableEq

/-- The external collaborators of `jptext2` as oracles: the four JIS table
membership tests (`c in self._jis_x_…`), `emoji.is_emoji`, the cp932 codec
(`none` when the character has no cp932 encoding), and the font engine
(pixel grid of the rendered, 1-bit-converted glyph per font profile). -/
structure Oracles where
  jis0201 : Char → Bool
  jis0208 : Char → Bool
  jis0212 : Char → Bool
  jis0213 : Char → Bool
  isEmoji : Char → Bool
  encodeCp932 : Char → Option (List Nat)
  render : FontProfile → Char → Nat → Nat → Nat

/-- The classification chain of `jptext2` (lines 375–405): built-in when
`c.isascii() or c in jis0201 or c in jis0208`, else kanji font when
`c in jis0212 or c in jis0213`, else emoji font when `emoji.is_emoji(c)`,
else fallback font. -/
def classify (O : Oracles) (c : Char) : Classification :=
  if c.toNat < 128 || O.jis0201 c || O.jis0208 c then .builtin
  else if O.jis0212 c || O.jis0213 c then .custom .kanji
  else if O.isEmoji c then .custom .emojiFont
  else .custom .fallback

/-- One iteration of the `for c in text` loop of `jptext2`: the built-in
branch sends `c.encode('cp932', 'ignore')` (empty bytes when the codec
cannot encode `c`); a custom branch calls `_define_gaiji` with
`asciiflg=False` and sends its returned bytes after its device traffic.
The gaiji branch of `_define_gaiji` never raises (`defineGaiji_false_ok`),
so the `Except.error` arm is unreachable. -/
def emitChar (O : Oracles) (st : Pool) (c : Char) : Pool × List (List Nat) :=
  match classify O c with
  | .builtin => (st, [(O.encodeCp932 c).getD []])
  | .custom prof =>
      let out := defineGaiji (O.render prof c) st c false
      match out.result with
      | .ok sel => (out.pool, out.device ++ [sel])
      | .error _ => (out.pool, out.device)

/-- The whole `for c in text` loop: threads the gaiji pool and accumulates
device chunks in emission order. -/
def emitText (O : Oracles) (st : Pool) (text : List Char) :
    Pool × List (List Nat) :=
  text.foldl (fun a c =>
    let r := emitChar O a.1 c
    (r.1, a.2 ++ r.2)) (st, [])

/-- `jptext2(text, dw, dh, underline, wbreverse, bflg)`: the full sequence
of `_raw` chunks, in order — attribute-set commands, the per-character
body, attribute-clear commands — together with the final gaiji pool. -/
def jptext2 (O : Oracles) (st : Pool) (text : List Char)
    (dw dh underline wbreverse bflg : Bool) : Pool × List (List Nat) :=
  let n := (if dw then 0x04 else 0) + (if dh then 0x08 else 0)
    + (if underline then 0x80 else 0)
  let b := (if dw then 0x10 else 0) + (if dh then 0x20 else 0)
    + (if underline then 0x80 else 0)
  let hdr := (if n ≠ 0 then
      (if bflg then [[ESC, 0x21, b]] else []) ++ [[FS, 0x21, n]] else [])
    ++ (if wbreverse then [[GS, 0x42, 0x01]] else [])
  let body := emitText O st text
  let ftr := (if n ≠ 0 then
      (if bflg then [[ESC, 0x21, 0x00]] else []) ++ [[FS, 0x21, 0x00]] else [])
    ++ (if wbreverse then [[GS, 0x42, 0x00]] else [])
  (body.1, hdr ++ body.2 ++ ftr)

/-! Definitions written from the spec's words, for comparison with the
embedded code (refinement-style statements), plus small definitions used
only to state claims. -/

/-- From the spec (§4.3): the byte for rows `8g .. 8g+7` of column `x`,
most significant bit = topmost pixel of the group, bit set = black. -/
def specColByte (pix : Nat → Nat → Nat) (x g : Nat) : Nat :=
  128 * bitVal pix x (8 * g) + 64 * bitVal pix x (8 * g + 1)
    + 32 * bitVal pix x (8 * g + 2) + 16 * bitVal pix x (8 * g + 3)
    + 8 * bitVal pix x (8 * g + 4) + 4 * bitVal pix x (8 * g + 5)
    + 2 * bitVal pix x (8 * g + 6) + bitVal pix x (8 * g + 7)

/-- From the spec (§4.3): column-major packing of a height-24 bitmap —
columns left to right, three 8-row bytes per column, top group first. -/
def specPackBitmap (pix : Nat → Nat → Nat) (w : Nat) : List Nat :=
  (List.range w).foldl
    (fun out x => out ++ [specColByte pix x 0, specColByte pix x 1, specColByte pix x 2]) []

/-- From the claim on the double-byte definition command: opcode, fixed
high byte `c1`, slot low byte twice, then the packed bitmap bytes. -/
def claimedGaijiDefineCmd (k : Nat) (packed : List Nat) : List Nat :=
  [FS, 0x32, c1, k, k] ++ packed

/-- The `FS !`/`ESC !` flag byte `n` of `jptext2`. -/
def attrN (dw dh underline : Bool) : Nat :=
  (if dw then 0x04 else 0) + (if dh then 0x08 else 0) + (if underline then 0x80 else 0)

/-- The single-byte flag byte `b` of `jptext2`. -/
def attrB (dw dh underline : Bool) : Nat :=
  (if dw then 0x10 else 0) + (if dh then 0x20 else 0) + (if underline then 0x80 else 0)

/-- The attribute-set chunks `jptext2` sends before the text body. -/
def setCmds (dw dh underline wbreverse bflg : Bool) : List (List Nat) :=
  (if attrN dw dh underline ≠ 0 then
    (if bflg then [[ESC, 0x21, attrB dw dh underline]] else [])
      ++ [[FS, 0x21, attrN dw dh underline]] else [])
    ++ (if wbreverse then [[GS, 0x42, 0x01]] else [])

/-- The attribute-clear chunks `jptext2` sends after the text body. -/
def clearCmds (dw dh underline wbreverse bflg : Bool) : List (List Nat) :=
  (if attrN dw dh underline ≠ 0 then
    (if bflg then [[ESC, 0x21, 0x00]] else []) ++ [[FS, 0x21, 0x00]] else [])
    ++ (if wbreverse then [[GS, 0x42, 0x00]] else [])

/-- Does a chunk start with the two given opcode bytes? -/
def chunkHasOpcode (op1 op2 : Nat) (chunk : List Nat) : Bool :=
  chunk.take 2 == [op1, op2]

/-- The pool's slot identifiers, in recency order. -/
def slotIds (p : Pool) : List Nat := p.map (fun kv => kv.1)

/-- How many slots of the pool hold character `c`. -/
def occCount (p : Pool) (c : Char) : Nat :=
  p.countP (fun kv => kv.2 == some c)

/-- Is character `c` resident in some slot of the pool? -/
def isResident (p : Pool) (c : Char) : Bool :=
  p.any (fun kv => kv.2 == some c)

/-- The slot-pool invariants of the spec: no duplicate slot id, and a
character occupies at most one slot. -/
def poolInv (p : Pool) : Prop :=
  (slotIds p).Nodup ∧ ∀ c : Char, occCount p c ≤ 1

/-- The least-recently-used occupied slot: the pool entry nearest the LRU
end whose occupant is set. -/
def lruOccupied (p : Pool) : Option (Nat × Option Char) :=
  p.find? (fun kv => kv.2.isSome)

/-- The occupant of the least-recently-used occupied slot. -/
def lruOccupant (p : Pool) : Option Char :=
  (lruOccupied p).bind (fun kv => kv.2)

/-- Register a sequence of characters into the double-byte pool
(`_define_gaiji` with `asciiflg=False` for each in turn), returning the
final pool. -/
def regChars (pix : Nat → Nat → Nat) (p : Pool) (cs : List Char) : Pool :=
  cs.foldl (fun st c => (defineGaiji pix st c false).pool) p

/-- An all-white pixel oracle (blank rendered glyph), used for witnesses. -/
def whitePix : Nat → Nat → Nat := fun _ _ => 255

/-- Concrete oracles for witnesses: every membership test false, the codec
always failing, blank renders. -/
def O0 : Oracles where
  jis0201 := fun _ => false
  jis0208 := fun _ => false
  jis0212 := fun _ => false
  jis0213 := fun _ => false
  isEmoji := fun _ => false
  encodeCp932 := fun _ => none
  render := fun _ _ _ _ => 255

/-! Theorems. -/

lemma inner24 (pix : Nat → Nat → Nat) (x : Nat) (out : List Nat) :
    (List.range 24).foldl (packInner pix x) (([] : List Nat), out)
    = ([], out ++ [specColByte pix x 0, specColByte pix x 1, specColByte pix x 2]) := by
  have h : List.range 24
      = [0,1,2,3,4,5,6,7,8,9,10,11,12,13,14,15,16,17,18,19,20,21,22,23] := rfl
  rw [h]
  simp only [List.foldl, packInner]
  norm_num [bitsToNat, specColByte]
  constructor
  · ring
  · constructor <;> ring

lemma outer_fold (pix : Nat → Nat → Nat) (xs : List Nat) (out : List Nat) :
    (xs.foldl (fun acc x => (List.range 24).foldl (packInner pix x) acc)
      (([] : List Nat), out))
    = ([], xs.foldl
        (fun o x => o ++ [specColByte pix x 0, specColByte pix x 1, specColByte pix x 2])
        out) := by
  induction xs generalizing out with
  | nil => rfl
  | cons x xs ih =>
      rw [List.foldl_cons]
      rw [inner24 pix x out]
      exact ih _

lemma packBitmap_eq_spec (pix : Nat → Nat → Nat) (w : Nat) :
    packBitmap pix w 24 = specPackBitmap pix w := by
  unfold packBitmap specPackBitmap
  rw [outer_fold]

lemma spec_fold_length (pix : Nat → Nat → Nat) (xs : List Nat) (out : List Nat) :
    (xs.foldl
      (fun o x => o ++ [specColByte pix x 0, specColByte pix x 1, specColByte pix x 2])
      out).length = out.length + 3 * xs.length := by
  induction xs generalizing out with
  | nil => simp
  | cons x xs ih =>
      rw [List.foldl_cons, ih]
      simp [List.length_append]
      ring

lemma packBitmap_length (pix : Nat → Nat → Nat) (w : Nat) :
    (packBitmap pix w 24).length = w * 3 := by
  rw [packBitmap_eq_spec]
  unfold specPackBitmap
  rw [spec_fold_length]
  simp [Nat.mul_comm]

set_option maxRecDepth 10000 in
/-- C4: packing a width-`w`, height-24 monochrome bitmap yields exactly
`w × 3` bytes (72 for 24×24, 36 for 12×24) in column-major order — columns
left to right, one byte per 8 vertically consecutive pixels, most
significant bit the topmost pixel of its group, bit set = black; an
all-black 24×24 bitmap packs to 72 bytes `0xFF` and an all-white one to 72
bytes `0x00`. -/
theorem C4_pack_column_major :
    (∀ pix w, packBitmap pix w 24 = specPackBitmap pix w)
    ∧ (∀ pix w, (packBitmap pix w 24).length = w * 3)
    ∧ (∀ pix, (packBitmap pix 24 24).length = 72)
    ∧ (∀ pix, (packBitmap pix 12 24).length = 36)
    ∧ packBitmap (fun _ _ => 0) 24 24 = List.replicate 72 255
    ∧ packBitmap whitePix 24 24 = List.replicate 72 0 :=
  ⟨packBitmap_eq_spec, packBitmap_length,
   fun pix => packBitmap_length pix 24,
   fun pix => packBitmap_length pix 12,
   by decide, by decide⟩

lemma flatten_map_singleton (l : List Nat) :
    (l.map (fun b => [b])).flatten = l := by
  induction l with
  | nil => rfl
  | cons x xs ih => simp [ih]

lemma defineGaiji_gaiji_hit (pix : Nat → Nat → Nat) (p : Pool) (g : Char)
    (k : Nat) (v : Option Char)
    (h : p.find? (fun kv => kv.2 == some g) = some (k, v)) :
    defineGaiji pix p g false
      = { pool := p.eraseP (fun kv => kv.1 == k) ++ [(k, v)]
          result := Except.ok [c1, k]
          device := [] } := by
  simp [defineGaiji, h]

lemma defineGaiji_gaiji_miss (pix : Nat → Nat → Nat) (k : Nat) (v : Option Char)
    (rest : Pool) (g : Char)
    (h : ((k, v) :: rest).find? (fun kv => kv.2 == some g) = none) :
    defineGaiji pix ((k, v) :: rest) g false
      = { pool := rest ++ [(k, some g)]
          result := Except.ok [c1, k]
          device := escposRegisterGaiji pix k false } := by
  simp [defineGaiji, h]

lemma isResident_false_find? (p : Pool) (g : Char)
    (h : isResident p g = false) :
    p.find? (fun kv => kv.2 == some g) = none := by
  rw [List.find?_eq_none]
  exact List.any_eq_false.mp h

lemma escposRegisterGaiji_ne_nil (pix : Nat → Nat → Nat) (k : Nat) (flg : Bool) :
    escposRegisterGaiji pix k flg ≠ [] := by
  cases flg <;> simp [escposRegisterGaiji]

lemma defineGaiji_miss_device (pix : Nat → Nat → Nat) (k : Nat) (v : Option Char)
    (rest : Pool) (g : Char)
    (h : isResident ((k, v) :: rest) g = false) :
    (defineGaiji pix ((k, v) :: rest) g false).device ≠ [] := by
  rw [defineGaiji_gaiji_miss pix k v rest g (isResident_false_find? _ _ h)]
  exact escposRegisterGaiji_ne_nil pix k false

lemma defineGaiji_miss_device_of_ne_nil (pix : Nat → Nat → Nat) (p : Pool)
    (g : Char) (hne : p ≠ []) (h : isResident p g = false) :
    (defineGaiji pix p g false).device ≠ [] := by
  match p, hne with
  | (k, v) :: rest, _ => exact defineGaiji_miss_device pix k v rest g h

lemma defineGaiji_pool_hit (pix : Nat → Nat → Nat) (p : Pool) (g : Char)
    (flg : Bool) (k : Nat) (v : Option Char)
    (h : p.find? (fun kv => kv.2 == some g) = some (k, v)) :
    (defineGaiji pix p g flg).pool
      = p.eraseP (fun kv => kv.1 == k) ++ [(k, v)] := by
  cases flg <;> simp [defineGaiji, h]

lemma defineGaiji_pool_miss (pix : Nat → Nat → Nat) (k : Nat) (v : Option Char)
    (rest : Pool) (g : Char) (flg : Bool)
    (h : ((k, v) :: rest).find? (fun kv => kv.2 == some g) = none) :
    (defineGaiji pix ((k, v) :: rest) g flg).pool = rest ++ [(k, some g)] := by
  cases flg <;> simp [defineGaiji, h]

lemma defineGaiji_pool_nil (pix : Nat → Nat → Nat) (g : Char) (flg : Bool) :
    (defineGaiji pix [] g flg).pool = [] := by
  cases flg <;> rfl

lemma hit_pool_perm (p : Pool) (k : Nat) (v : Option Char)
    (hnd : (slotIds p).Nodup) (hmem : (k, v) ∈ p) :
    (p.eraseP (fun kv => kv.1 == k) ++ [(k, v)]).Perm p := by
  have hq : ((fun kv => kv.1 == k) ((k, v) : Nat × Option Char)) = true := by simp
  obtain ⟨a, l1, l2, hl1, ha, hp, he⟩ :=
    List.exists_of_eraseP (p := fun kv => kv.1 == k) hmem hq
  have hak : a.1 = k := by simpa using ha
  have hamem : a ∈ p := by
    rw [hp]
    exact List.mem_append_right _ (List.mem_cons_self _ _)
  have hav : a = (k, v) := by
    have hinj := List.inj_on_of_nodup_map (f := fun kv => kv.1) (l := p)
    exact hinj hnd hamem hmem (by simp [hak])
  rw [he, hp, ← hav]
  exact (List.perm_append_singleton _ _).trans List.perm_middle.symm

lemma poolInv_preserved (pix : Nat → Nat → Nat) (p : Pool) (g : Char)
    (flg : Bool) (h : poolInv p) :
    (defineGaiji pix p g flg).pool.length = p.length
    ∧ poolInv (defineGaiji pix p g flg).pool := by
  obtain ⟨hnd, hocc⟩ := h
  rcases hf : p.find? (fun kv => kv.2 == some g) with _ | ⟨k, v⟩
  · match p, hf with
    | [], _ =>
        rw [defineGaiji_pool_nil]
        exact ⟨rfl, by simp [poolInv, slotIds], fun c => by simp [occCount]⟩
    | (k, v) :: rest, hf =>
        rw [defineGaiji_pool_miss pix k v rest g flg hf]
        refine ⟨by simp, ?_, ?_⟩
        · have hsl : slotIds (rest ++ [(k, some g)]) = slotIds rest ++ [k] := by
            simp [slotIds]
          rw [hsl, (List.perm_append_singleton _ _).nodup_iff]
          simpa [slotIds] using hnd
        · intro c
          rw [occCount, List.countP_append, List.countP_singleton]
          by_cases hc : c = g
          · subst hc
            have h0 : rest.countP (fun kv => kv.2 == some c) = 0 := by
              rw [List.countP_eq_zero]
              exact fun kv hm =>
                List.find?_eq_none.mp hf kv (List.mem_cons_of_mem _ hm)
            simp [h0]
          · have hocc' := hocc c
            rw [occCount, List.countP_cons] at hocc'
            have hfalse : (((k, some g) : Nat × Option Char).2 == some c) = false := by
              simp
              exact fun he => hc he.symm
            rw [hfalse]
            simp only [Bool.false_eq_true, if_false, Nat.add_zero]
            calc rest.countP (fun kv => kv.2 == some c)
                ≤ rest.countP (fun kv => kv.2 == some c)
                  + (if ((v : Option Char) == some c) = true then 1 else 0) :=
                  Nat.le_add_right _ _
              _ ≤ 1 := hocc'
  · have hmem := List.mem_of_find?_eq_some hf
    have hperm := hit_pool_perm p k v hnd hmem
    rw [defineGaiji_pool_hit pix p g flg k v hf]
    refine ⟨hperm.length_eq, ?_, fun c => ?_⟩
    · have hiff := (hperm.map (fun kv => kv.1)).nodup_iff
      unfold slotIds at hnd ⊢
      rw [List.map_append] at hiff ⊢
      rw [hiff]
      exact hnd
    · rw [occCount, hperm.countP_eq]
      exact hocc c

lemma occCount_map_none (l : List Nat) (c : Char) :
    occCount (l.map (fun a => (a, (none : Option Char)))) c = 0 := by
  rw [occCount, List.countP_map, List.countP_eq_zero]
  intro a _
  simp [Function.comp]

/-- C1: classification of a single character follows the first-match
decision order of `jptext2`: ASCII / JIS X 0201 / JIS X 0208 members print
via the built-in code page; otherwise JIS X 0212 / JIS X 0213-2004 members
become custom glyphs with the kanji font profile; otherwise emoji become
custom glyphs with the emoji font profile; otherwise the fallback font
profile applies — every character matches exactly one rule and every
base-ASCII character is classified builtin. -/
theorem C1_classify_first_match :
    ∀ (O : Oracles) (c : Char),
      ((c.toNat < 128 ∨ O.jis0201 c = true ∨ O.jis0208 c = true) →
        classify O c = Classification.builtin)
      ∧ (¬(c.toNat < 128 ∨ O.jis0201 c = true ∨ O.jis0208 c = true) →
          (O.jis0212 c = true ∨ O.jis0213 c = true) →
          classify O c = Classification.custom FontProfile.kanji)
      ∧ (¬(c.toNat < 128 ∨ O.jis0201 c = true ∨ O.jis0208 c = true) →
          ¬(O.jis0212 c = true ∨ O.jis0213 c = true) →
          O.isEmoji c = true →
          classify O c = Classification.custom FontProfile.emojiFont)
      ∧ (¬(c.toNat < 128 ∨ O.jis0201 c = true ∨ O.jis0208 c = true) →
          ¬(O.jis0212 c = true ∨ O.jis0213 c = true) →
          O.isEmoji c = false →
          classify O c = Classification.custom FontProfile.fallback)
      ∧ (c.toNat < 128 → classify O c = Classification.builtin) := by
  intro O c
  refine ⟨fun h => ?_, fun h1 h2 => ?_, fun h1 h2 h3 => ?_, fun h1 h2 h3 => ?_,
    fun h => ?_⟩ <;>
    simp only [classify, Bool.or_eq_true, decide_eq_true_eq] <;>
    first
      | (rw [if_pos]; tauto)
      | (rw [if_neg, if_pos] <;> tauto)
      | (rw [if_neg, if_neg, if_pos] <;> tauto)
      | (rw [if_neg, if_neg, if_neg] <;> simp_all)

/-- C1 witness: the ASCII character `'A'` is classified builtin. -/
theorem C1_witness : classify O0 'A' = Classification.builtin :=
  (C1_classify_first_match O0 'A').1 (Or.inl (by decide))

/-- C2: registering a character already resident in the double-byte pool
is a cache hit — `_define_gaiji` returns the selection bytes `c1 ++ slot`
for the slot the character already occupies, sends nothing to the device
(no rasterization, no definition command), and moves that slot to the MRU
end without changing its slot id or occupant; after accesses
`[a, b, c, a]` from the fresh pool the least-recently-used occupant is
`b`, not `a`. -/
theorem C2_cache_hit_mru :
    (∀ (pix : Nat → Nat → Nat) (p1 p2 : Pool) (k : Nat) (a : Char),
      (∀ kv ∈ p1, kv.2 ≠ some a) →
      (∀ kv ∈ p1, kv.1 ≠ k) →
      defineGaiji pix (p1 ++ (k, some a) :: p2) a false
        = { pool := (p1 ++ p2) ++ [(k, some a)]
            result := Except.ok [c1, k]
            device := [] })
    ∧ lruOccupant (regChars whitePix initGaijiAreas ['a', 'b', 'c', 'a'])
        = some 'b' := by
  constructor
  · intro pix p1 p2 k a hocc hkey
    have hfind : (p1 ++ (k, some a) :: p2).find? (fun kv => kv.2 == some a)
        = some (k, some a) := by
      rw [List.find?_append]
      have h1 : p1.find? (fun kv => kv.2 == some a) = none := by
        rw [List.find?_eq_none]
        intro kv hm
        simpa using hocc kv hm
      rw [h1, List.find?_cons_of_pos _ (by simp)]
      rfl
    rw [defineGaiji_gaiji_hit pix _ a k (some a) hfind]
    have herase : (p1 ++ (k, some a) :: p2).eraseP (fun kv => kv.1 == k)
        = p1 ++ p2 := by
      rw [List.eraseP_append_right _ (fun b hb => by simpa using hkey b hb),
        List.eraseP_cons_of_pos (by simp)]
    rw [herase]
  · decide

/-- C2 witness: a hit on the pool `[(0x40, x), (0x41, y)]` for `y` returns
`c1 ++ 0x41`, no device traffic, and leaves `y` most recently used. -/
theorem C2_witness :
    defineGaiji whitePix [(0x40, some 'x'), (0x41, some 'y')] 'y' false
      = { pool := [(0x40, some 'x'), (0x41, some 'y')]
          result := Except.ok [c1, 0x41]
          device := [] } := by
  have h := C2_cache_hit_mru.1 whitePix [(0x40, some 'x')] [] 0x41 'y'
    (by decide) (by decide)
  simpa using h

/-- C3: on a full pool, registering a fresh character evicts exactly the
least-recently-used occupant (the front slot), assigns the new character to
that slot at the MRU end, emits a definition command, and returns that
slot's selection bytes; the evicted character is then no longer resident,
so re-registering it is a miss that emits a fresh definition command. -/
theorem C3_full_pool_eviction :
    ∀ (pix pix2 : Nat → Nat → Nat) (k : Nat) (x : Char) (rest : Pool) (g : Char),
      isResident ((k, some x) :: rest) g = false →
      isResident rest x = false →
      defineGaiji pix ((k, some x) :: rest) g false
        = { pool := rest ++ [(k, some g)]
            result := Except.ok [c1, k]
            device := escposRegisterGaiji pix k false }
      ∧ escposRegisterGaiji pix k false ≠ []
      ∧ isResident (rest ++ [(k, some g)]) x = false
      ∧ (defineGaiji pix2 (rest ++ [(k, some g)]) x false).device ≠ [] := by
  intro pix pix2 k x rest g hmiss hx
  have hxg : x ≠ g := by
    intro he
    subst he
    simp [isResident] at hmiss
  have hreg : defineGaiji pix ((k, some x) :: rest) g false
      = { pool := rest ++ [(k, some g)]
          result := Except.ok [c1, k]
          device := escposRegisterGaiji pix k false } :=
    defineGaiji_gaiji_miss pix k (some x) rest g (isResident_false_find? _ _ hmiss)
  have hres : isResident (rest ++ [(k, some g)]) x = false := by
    simp only [isResident, List.any_append, List.any_cons, List.any_nil,
      Bool.or_eq_false_iff]
    refine ⟨hx, ?_⟩
    simp [Ne.symm hxg]
  refine ⟨hreg, escposRegisterGaiji_ne_nil pix k false, hres, ?_⟩
  exact defineGaiji_miss_device_of_ne_nil pix2 _ x (by simp) hres

/-- C3 witness: evicting `p` from the full two-slot pool
`[(0x40, p), (0x41, q)]` on registration of `r`. -/
theorem C3_witness :
    defineGaiji whitePix [(0x40, some 'p'), (0x41, some 'q')] 'r' false
      = { pool := [(0x41, some 'q'), (0x40, some 'r')]
          result := Except.ok [c1, 0x40]
          device := escposRegisterGaiji whitePix 0x40 false }
      ∧ isResident [(0x41, some 'q'), (0x40, some 'r')] 'p' = false := by
  have h := C3_full_pool_eviction whitePix whitePix 0x40 'p' [(0x41, some 'q')] 'r'
    (by decide) (by decide)
  exact ⟨by simpa using h.1, by simpa using h.2.2.1⟩

set_option maxRecDepth 10000 in
/-- C5 counterexample: for a blank 24×24 glyph in slot `0x40`, the emitted
double-byte definition command is not of the claimed shape (slot low byte
twice): the code sends the slot low byte once. -/
theorem C5_counterexample :
    (escposRegisterGaiji whitePix 0x40 false).flatten
      ≠ claimedGaijiDefineCmd 0x40 (packBitmap whitePix 24 24) := by decide

/-- C5 amended: the double-byte glyph definition command is the opcode
`FS 2`, the fixed high byte `c1`, the slot low byte once, then the 72
packed bitmap bytes of the 24×24 glyph. -/
theorem C5_gaiji_define_cmd :
    ∀ (pix : Nat → Nat → Nat) (k : Nat),
      (escposRegisterGaiji pix k false).flatten
        = [FS, 0x32, c1, k] ++ packBitmap pix 24 24
      ∧ (packBitmap pix 24 24).length = 72 := by
  intro pix k
  constructor
  · simp [escposRegisterGaiji, flatten_map_singleton]
  · exact packBitmap_length pix 24

/-- C6: the single-byte (download character) selection bytes. On a miss
the code returns `ESC % 01, slot, ESC % 00` as claimed, but on a cache hit
line 309 concatenates `bytes` with the `str` literal `' \x01'` and raises
`TypeError` instead of returning the selection bytes — the embedded model
returns `Except.error ()` there. -/
theorem C6_single_byte_hit_raises :
    (defineGaiji whitePix [(0x20, some 'x')] 'x' true).result = Except.error ()
    ∧ (defineGaiji whitePix [(0x20, none)] 'x' true).result
        = Except.ok [ESC, 0x25, 0x01, 0x20, ESC, 0x25, 0x00] := ⟨rfl, rfl⟩

/-- C7: every `jptext2` call emits the attribute-set chunks strictly
before any character output and the matching attribute-clear chunks
strictly after it, even for empty text; for each of the three attribute
commands (`FS !`, `ESC !`, `GS B`) a clear chunk is present if and only if
the corresponding set chunk is, and `underline=true` forces the `FS !`
set/clear pair. -/
theorem C7_attribute_bracketing :
    ∀ (O : Oracles) (st : Pool) (text : List Char)
      (dw dh underline wbreverse bflg : Bool),
      ∃ body : List (List Nat),
        (jptext2 O st text dw dh underline wbreverse bflg).2
          = setCmds dw dh underline wbreverse bflg ++ body
            ++ clearCmds dw dh underline wbreverse bflg
        ∧ (text = [] → body = [])
        ∧ (underline = true →
            (setCmds dw dh underline wbreverse bflg).any (chunkHasOpcode FS 0x21) = true
            ∧ (clearCmds dw dh underline wbreverse bflg).any (chunkHasOpcode FS 0x21) = true)
        ∧ ((setCmds dw dh underline wbreverse bflg).any (chunkHasOpcode FS 0x21)
            = (clearCmds dw dh underline wbreverse bflg).any (chunkHasOpcode FS 0x21))
        ∧ ((setCmds dw dh underline wbreverse bflg).any (chunkHasOpcode ESC 0x21)
            = (clearCmds dw dh underline wbreverse bflg).any (chunkHasOpcode ESC 0x21))
        ∧ ((setCmds dw dh underline wbreverse bflg).any (chunkHasOpcode GS 0x42)
            = (clearCmds dw dh underline wbreverse bflg).any (chunkHasOpcode GS 0x42))
        ∧ (setCmds dw dh underline wbreverse bflg = []
            ↔ clearCmds dw dh underline wbreverse bflg = []) := by
  intro O st text dw dh underline wbreverse bflg
  refine ⟨(emitText O st text).2, rfl, ?_, ?_, ?_, ?_, ?_, ?_⟩
  · intro h
    subst h
    rfl
  · intro h
    subst h
    revert dw dh wbreverse bflg
    decide
  all_goals
    revert dw dh underline wbreverse bflg
    decide

/-- C7 witness: with `underline=true` and empty text the stream is exactly
the set chunks followed by the clear chunks. -/
theorem C7_witness :
    (jptext2 O0 initGaijiAreas [] false false true false false).2
      = setCmds false false true false false
        ++ clearCmds false false true false false := by
  obtain ⟨body, h1, h2, _⟩ :=
    C7_attribute_bracketing O0 initGaijiAreas [] false false true false false
  rw [h1, h2 rfl]
  simp

set_option maxRecDepth 40000 in
/-- C8: the single-byte pool starts with exactly 95 slots and the
double-byte pool with exactly 94, both satisfying the invariants (no
duplicate slot id, each character in at most one slot), and every
`_define_gaiji` call preserves the slot count and both invariants. -/
theorem C8_pool_invariants :
    (initUserAreas.length = 95 ∧ initGaijiAreas.length = 94
      ∧ poolInv initUserAreas ∧ poolInv initGaijiAreas)
    ∧ ∀ (pix : Nat → Nat → Nat) (p : Pool) (g : Char) (flg : Bool),
        poolInv p →
        (defineGaiji pix p g flg).pool.length = p.length
        ∧ poolInv (defineGaiji pix p g flg).pool := by
  constructor
  · refine ⟨by decide, by decide, ⟨by decide, fun c => ?_⟩, ⟨by decide, fun c => ?_⟩⟩
    · unfold initUserAreas
      rw [occCount_map_none]
      exact Nat.zero_le 1
    · unfold initGaijiAreas
      rw [occCount_map_none]
      exact Nat.zero_le 1
  · exact poolInv_preserved

/-- C8 witness: one registration into a valid one-slot pool keeps the slot
count and the invariants. -/
theorem C8_witness :
    (defineGaiji whitePix [(0x40, some 'x')] 'y' false).pool.length = 1
    ∧ poolInv (defineGaiji whitePix [(0x40, some 'x')] 'y' false).pool :=
  C8_pool_invariants.2 whitePix [(0x40, some 'x')] 'y' false
    ⟨by decide, fun c => List.countP_le_length _⟩

/-- C9 counterexample: on a capacity-0 pool `_define_gaiji` silently
returns empty bytes with no device traffic and raises nothing — it is not
a fatal configuration error as claimed. -/
theorem C9_counterexample :
    (defineGaiji whitePix [] 'x' false).result = Except.ok []
    ∧ (defineGaiji whitePix [] 'x' false).device = []
    ∧ (defineGaiji whitePix [] 'x' true).result = Except.ok []
    ∧ (defineGaiji whitePix [] 'x' true).device = []
    ∧ (defineGaiji whitePix [] 'x' false).result ≠ Except.error () :=
  ⟨rfl, rfl, rfl, rfl, fun h => Except.noConfusion h⟩

/-- C9 amended: on a capacity-0 pool `_define_gaiji` performs no
registration, emits no device command, and returns empty bytes without
raising. -/
theorem C9_empty_pool_silent :
    ∀ (pix : Nat → Nat → Nat) (g : Char) (flg : Bool),
      defineGaiji pix [] g flg
        = { pool := [], result := Except.ok [], device := [] } := by
  intro pix g flg
  cases flg <;> rfl

/-- C10: a character on the builtin path that the cp932 codec cannot
encode contributes zero output bytes and raises nothing — it is silently
dropped, because the builtin branch encodes with `errors='ignore'`. -/
theorem C10_unencodable_builtin_dropped :
    ∀ (O : Oracles) (st : Pool) (c : Char),
      classify O c = Classification.builtin →
      O.encodeCp932 c = none →
      emitChar O st c = (st, [[]])
      ∧ ((jptext2 O st [c] false false false false false).2).flatten = [] := by
  intro O st c hclass henc
  have he : emitChar O st c = (st, [[]]) := by
    unfold emitChar
    rw [hclass, henc]
    rfl
  refine ⟨he, ?_⟩
  simp [jptext2, emitText, he]

/-- C10 witness: with the always-failing codec oracle, `'A'` (builtin via
ASCII) produces an empty emission. -/
theorem C10_witness :
    emitChar O0 initGaijiAreas 'A' = (initGaijiAreas, [[]])
    ∧ ((jptext2 O0 initGaijiAreas ['A'] false false false false false).2).flatten
        = [] :=
  C10_unencodable_builtin_dropped O0 initGaijiAreas 'A' (by decide) rfl

end TM88IV
